import Mathlib

/-!
Verification development for `summarize_script.py`, an RSS news summarizer.

The script's pure core is embedded shallowly:

* `token_sort_ratio` — the title-similarity score.  The script calls
  `thefuzz.fuzz.token_sort_ratio`, an external dependency; it is modelled here
  from that library's documented algorithm (lowercase, map non-alphanumeric
  characters to spaces, split into tokens, sort the tokens, rejoin with single
  spaces, then the normalized Indel ratio scaled to 0..100, which equals
  `200 * lcs / (len a + len b)` rounded to an integer).  Python's `round` is
  half-to-even; the model rounds half up — the two agree except exactly at
  `.5`, and no theorem below depends on the rounding mode.
* `group_articles` — greedy single-pass clustering over a consumed-index set
  (source lines 162-191).  The loop "first unconsumed article seeds a cluster;
  all later unconsumed articles similar to the seed join it" is rendered as a
  structural recursion with a fuel argument equal to the list length (the fuel
  never runs out, which the lemmas below establish).
* the ranking of clusters (source lines 246-264), including Python's stable
  `list.sort(key=..., reverse=True)`, modelled by `List.insertionSort` with the
  non-strict descending relation: a stable descending sort is unique, and
  stability is proved below.
* `fetch_full_article_text` (source lines 67-123) minus the HTTP fetch and the
  HTML parse: the function is modelled on an already-parsed element tree.
  BeautifulSoup's `find_all` with a list argument matches element *names*
  against the given strings; `Tag` objects are always truthy, `None` is falsy.
* the tail of `main` (source lines 234-315): sort candidates by date, cluster,
  rank, pick the top story, fetch (or fall back to the feed teaser), and emit
  exactly one RSS item — or return early when there are no candidates.

Python strings are modelled as `List Char` (`Str`), `len`/slicing as
`List.length`/`List.take`; timestamps as `Nat` (timezone-aware UTC datetimes
are totally ordered, and only comparisons matter).
-/

abbrev Str := List Char

/-! ### Title similarity: model of `thefuzz.fuzz.token_sort_ratio` -/

/-- Longest-common-subsequence helper: `lcsLenAux (lcsLen as) a ys` computes
the LCS length of `a :: as` against `ys`, structurally on `ys`. -/
def lcsLenAux (f : Str → Nat) (a : Char) : Str → Nat
  | [] => 0
  | b :: bs => if a = b then f bs + 1 else max (f (b :: bs)) (lcsLenAux f a bs)

/-- Length of the longest common subsequence of two strings.  The Indel
distance underlying `rapidfuzz`'s `ratio` is `len x + len y - 2 * lcs`. -/
def lcsLen : Str → Str → Nat
  | [], _ => 0
  | a :: as, ys => lcsLenAux (lcsLen as) a ys

theorem lcsLen_nil_right : ∀ x : Str, lcsLen x [] = 0
  | [] => rfl
  | _ :: _ => rfl

theorem lcsLen_cons_cons (a : Char) (as : Str) (b : Char) (bs : Str) :
    lcsLen (a :: as) (b :: bs) =
      if a = b then lcsLen as bs + 1
      else max (lcsLen as (b :: bs)) (lcsLen (a :: as) bs) := rfl

theorem lcsLen_comm : ∀ x y : Str, lcsLen x y = lcsLen y x
  | [], y => (lcsLen_nil_right y).symm
  | _ :: _, [] => lcsLen_nil_right _
  | a :: as, b :: bs => by
    rw [lcsLen_cons_cons, lcsLen_cons_cons]
    rcases eq_or_ne a b with h | h
    · subst h
      simp [lcsLen_comm as bs]
    · simp only [if_neg h, if_neg (Ne.symm h)]
      rw [lcsLen_comm as (b :: bs), lcsLen_comm (a :: as) bs, Nat.max_comm]
  termination_by x y => x.length + y.length
  decreasing_by all_goals simp_arith

/-- `thefuzz` ratio of two (already processed) strings: normalized Indel
similarity scaled to 0..100 and rounded to an integer (`100` for two empty
strings, as in `rapidfuzz`). -/
def indel_ratio (x y : Str) : Nat :=
  if x.length + y.length = 0 then 100
  else (2 * (200 * lcsLen x y) + (x.length + y.length)) / (2 * (x.length + y.length))

theorem indel_ratio_comm (x y : Str) : indel_ratio x y = indel_ratio y x := by
  unfold indel_ratio
  rw [lcsLen_comm, Nat.add_comm x.length y.length]

/-- `rapidfuzz.utils.default_process`: lowercase and replace every
non-alphanumeric character by a space (trailing trim is irrelevant because the
subsequent split drops empty tokens). -/
def default_process (s : Str) : Str :=
  s.map fun c => if c.isAlphanum then c.toLower else ' '

/-- One step of splitting on spaces (right fold state: tokens seen so far and
the token currently being built). -/
def splitStep (c : Char) : List Str × Str → List Str × Str
  | (toks, cur) =>
    if c = ' ' then (if cur = [] then (toks, []) else (cur :: toks, []))
    else (toks, c :: cur)

/-- Split a string on spaces, dropping empty tokens (Python `str.split()`). -/
def splitTokens (s : Str) : List Str :=
  let r := s.foldr splitStep ([], [])
  if r.2 = [] then r.1 else r.2 :: r.1

/-- Lexicographic comparison of strings by code point (Python `sorted` on a
list of `str`). -/
def strLe : Str → Str → Bool
  | [], _ => true
  | _ :: _, [] => false
  | a :: as, b :: bs => if a < b then true else if b < a then false else strLe as bs

instance : DecidableRel fun x y : Str => strLe x y = true := fun _ _ => decEq _ _

/-- The `token_sort` preprocessing: process, split into tokens, sort them, and
rejoin with single spaces. -/
def sorted_tokens_join (s : Str) : Str :=
  List.intercalate [' ']
    (List.insertionSort (fun x y : Str => strLe x y = true) (splitTokens (default_process s)))

/-- Model of `thefuzz.fuzz.token_sort_ratio`, the similarity score used by
`group_articles` (source line 180). -/
def token_sort_ratio (s1 s2 : Str) : Nat :=
  indel_ratio (sorted_tokens_join s1) (sorted_tokens_join s2)

/-! ### Articles and clustering (source lines 162-191, 221-235) -/

/-- One candidate article, as assembled in `main` (source lines 221-229). -/
structure Article where
  title : Str
  link : Str
  pub_date : Nat
  content_for_summary : Str
  source_feed : Str
  id : Str
  deriving DecidableEq, Repr

/-- `TITLE_SIMILARITY_THRESHOLD` (source line 54). -/
def TITLE_SIMILARITY_THRESHOLD : Nat := 85

/-- The worker for `group_articles`.  The Python loop keeps a
`processed_indices` set: the first unconsumed article `i` seeds a new cluster,
and every later unconsumed article `j` whose title scores at least the
threshold against the *seed's* title joins it; remaining articles are handled
by the next outer iteration.  That is exactly: seed the head, partition the
tail by similarity to the seed, recurse on the non-matching part.  The fuel
argument (always at least the list length) makes the recursion structural. -/
def group_articles_go : Nat → List Article → List (List Article)
  | _, [] => []
  | 0, _ :: _ => []
  | fuel + 1, a :: as =>
    let p := as.partition fun b =>
      decide (TITLE_SIMILARITY_THRESHOLD ≤ token_sort_ratio a.title b.title)
    (a :: p.1) :: group_articles_go fuel p.2

/-- `group_articles` (source lines 162-191). -/
def group_articles (articles : List Article) : List (List Article) :=
  group_articles_go articles.length articles

/-! ### C1: clustering is a partition -/

theorem group_articles_go_flatten_perm :
    ∀ (fuel : Nat) (l : List Article), l.length ≤ fuel →
      (group_articles_go fuel l).flatten.Perm l := by
  intro fuel
  induction fuel with
  | zero =>
    intro l h
    have hl : l = [] := List.eq_nil_of_length_eq_zero (Nat.le_zero.mp h)
    subst hl
    simp [group_articles_go]
  | succ n ih =>
    intro l h
    match l with
    | [] => simp [group_articles_go]
    | a :: as =>
      simp only [group_articles_go, List.partition_eq_filter_filter, List.flatten_cons,
        List.cons_append]
      refine List.Perm.cons a ?_
      have hlen : (as.filter (not ∘ fun b =>
          decide (TITLE_SIMILARITY_THRESHOLD ≤ token_sort_ratio a.title b.title))).length ≤ n :=
        le_trans (List.length_filter_le _ _) (Nat.succ_le_succ_iff.mp h)
      refine ((List.Perm.append_left _ (ih _ hlen)).trans ?_)
      have := List.filter_append_perm
        (fun b => decide (TITLE_SIMILARITY_THRESHOLD ≤ token_sort_ratio a.title b.title)) as
      simpa [Function.comp] using this

theorem group_articles_go_ne_nil :
    ∀ (fuel : Nat) (l : List Article) (c : List Article),
      c ∈ group_articles_go fuel l → c ≠ [] := by
  intro fuel
  induction fuel with
  | zero =>
    intro l c hc
    cases l with
    | nil => simp [group_articles_go] at hc
    | cons a as => simp [group_articles_go] at hc
  | succ n ih =>
    intro l c hc
    cases l with
    | nil => simp [group_articles_go] at hc
    | cons a as =>
      simp only [group_articles_go, List.mem_cons] at hc
      rcases hc with hc | hc
      · subst hc; simp
      · exact ih _ _ hc

/-- C1: for every input sequence of articles, the cluster list returned by
`group_articles` is a partition of the input — the concatenation of the
clusters is a permutation of the input (every input article appears in exactly
one cluster, none missing and none duplicated), and every cluster is
non-empty. -/
theorem group_articles_partition (l : List Article) :
    (group_articles l).flatten.Perm l ∧ ∀ c ∈ group_articles l, c ≠ [] :=
  ⟨group_articles_go_flatten_perm l.length l le_rfl,
   fun c hc => group_articles_go_ne_nil l.length l c hc⟩

/-- Concrete articles used to instantiate the theorems with hypotheses. -/
def wArt1 : Article :=
  ⟨['a', 'b'], ['u', '1'], 10, ['t', '1'], ['s', '1'], ['u', '1']⟩

def wArt2 : Article :=
  ⟨['a', 'b'], ['u', '2'], 5, ['t', '2'], ['s', '2'], ['u', '2']⟩

def wArt3 : Article :=
  ⟨['q', 'z'], ['u', '3'], 7, ['t', '3'], ['s', '3'], ['u', '3']⟩

theorem group_articles_partition_witness :
    ([wArt1, wArt2] : List Article) ≠ [] ∧
      (group_articles [wArt1, wArt2, wArt3]).flatten.Perm [wArt1, wArt2, wArt3] :=
  ⟨(group_articles_partition [wArt1, wArt2, wArt3]).2 [wArt1, wArt2] (by decide),
   (group_articles_partition [wArt1, wArt2, wArt3]).1⟩

/-! ### C9: similarity is symmetric -/

/-- C9: the title-similarity score used by clustering is symmetric:
`token_sort_ratio a b = token_sort_ratio b a` for every pair of titles. -/
theorem token_sort_ratio_symm (a b : Str) :
    token_sort_ratio a b = token_sort_ratio b a :=
  indel_ratio_comm _ _

/-! ### Ranking (source lines 246-264) -/

/-- Non-strict "published at least as recently as" relation.  Python's
`cluster.sort(key=lambda x: x["pub_date"], reverse=True)` is a stable
descending sort; a stable sort for a total preorder is unique, so it is
modelled by `List.insertionSort` with this relation (Mathlib's
`orderedInsert` keeps the inserted — originally earlier — element in front of
equal ones, which is exactly stability; proved below for the ranking sort). -/
def pubDateGe (a b : Article) : Prop := b.pub_date ≤ a.pub_date

instance : DecidableRel pubDateGe := fun a b => Nat.decLe b.pub_date a.pub_date

instance : IsTotal Article pubDateGe :=
  ⟨fun a b => (Nat.le_total a.pub_date b.pub_date).symm⟩

instance : IsTrans Article pubDateGe :=
  ⟨fun _ _ _ hab hbc => Nat.le_trans hbc hab⟩

/-- The sort on source lines 235 and 252. -/
def sort_by_pub_date_desc (l : List Article) : List Article :=
  List.insertionSort pubDateGe l

/-- One entry of `ranked_stories` (source lines 255-261). -/
structure RankedStory where
  representative_article_title : Str
  repetition_count : Nat
  most_recent_pub_date : Nat
  articles_in_cluster : List Article
  representative_article_for_summary : Article
  deriving DecidableEq, Repr

/-- The body of the loop on source lines 248-261: skip an empty cluster
(`if not cluster: continue`— equivalently, its descending sort is empty),
sort the cluster by `pub_date` descending in place, and take its head as the
representative. -/
def make_ranked_story (cluster : List Article) : Option RankedStory :=
  match sort_by_pub_date_desc cluster with
  | [] => none
  | rep :: rest =>
    some { representative_article_title := rep.title
           repetition_count := cluster.length
           most_recent_pub_date := rep.pub_date
           articles_in_cluster := rep :: rest
           representative_article_for_summary := rep }

/-- The `ranked_stories` list built on source lines 247-261. -/
def rank_stories (clusters : List (List Article)) : List RankedStory :=
  clusters.filterMap make_ranked_story

/-- Lexicographic `≤` on Python tuples `(repetition_count, most_recent_pub_date)`. -/
def keyLe (x y : Nat × Nat) : Prop := x.1 < y.1 ∨ (x.1 = y.1 ∧ x.2 ≤ y.2)

instance : DecidableRel keyLe :=
  fun x y => inferInstanceAs (Decidable (x.1 < y.1 ∨ (x.1 = y.1 ∧ x.2 ≤ y.2)))

/-- The sort key of source line 264. -/
def story_key (s : RankedStory) : Nat × Nat :=
  (s.repetition_count, s.most_recent_pub_date)

/-- `a` ranks at least as high as `b`: its key tuple is lexicographically at
least `b`'s (more repetitions first, then the more recent date). -/
def rankGe (a b : RankedStory) : Prop := keyLe (story_key b) (story_key a)

instance : DecidableRel rankGe :=
  fun a b => inferInstanceAs (Decidable (keyLe (story_key b) (story_key a)))

instance : IsTotal RankedStory rankGe := ⟨fun a b => by unfold rankGe keyLe; omega⟩

instance : IsTrans RankedStory rankGe := ⟨fun a b c h1 h2 => by
  unfold rankGe keyLe at h1 h2 ⊢
  omega⟩

/-- `ranked_stories.sort(key=lambda x: (x["repetition_count"],
x["most_recent_pub_date"]), reverse=True)` (source line 264): Python's stable
descending sort, modelled by insertion sort with the non-strict relation. -/
def sort_ranked_stories (l : List RankedStory) : List RankedStory :=
  List.insertionSort rankGe l

theorem filter_orderedInsert_key_eq (k : Nat × Nat) (a : RankedStory)
    (ha : story_key a = k) :
    ∀ l : List RankedStory,
      (List.orderedInsert rankGe a l).filter (fun s => decide (story_key s = k)) =
        a :: l.filter (fun s => decide (story_key s = k))
  | [] => by simp [List.orderedInsert, ha]
  | b :: l => by
    by_cases h : rankGe a b
    · simp [List.orderedInsert, if_pos h, List.filter_cons, ha]
    · have hbk : story_key b ≠ k := by
        intro hb
        exact h (Or.inr (by rw [ha, hb]; exact ⟨rfl, le_rfl⟩))
      simp only [List.orderedInsert, if_neg h, List.filter_cons, decide_eq_true_eq,
        if_neg hbk]
      exact filter_orderedInsert_key_eq k a ha l

theorem filter_orderedInsert_key_ne (k : Nat × Nat) (a : RankedStory)
    (ha : story_key a ≠ k) :
    ∀ l : List RankedStory,
      (List.orderedInsert rankGe a l).filter (fun s => decide (story_key s = k)) =
        l.filter (fun s => decide (story_key s = k))
  | [] => by simp [List.orderedInsert, ha]
  | b :: l => by
    by_cases h : rankGe a b
    · simp [List.orderedInsert, if_pos h, List.filter_cons, ha]
    · simp only [List.orderedInsert, if_neg h, List.filter_cons]
      rw [filter_orderedInsert_key_ne k a ha l]

theorem sort_ranked_stories_stable (k : Nat × Nat) :
    ∀ l : List RankedStory,
      (sort_ranked_stories l).filter (fun s => decide (story_key s = k)) =
        l.filter (fun s => decide (story_key s = k))
  | [] => rfl
  | a :: l => by
    show (List.orderedInsert rankGe a (sort_ranked_stories l)).filter _ = _
    by_cases ha : story_key a = k
    · rw [filter_orderedInsert_key_eq k a ha, sort_ranked_stories_stable k l]
      simp [List.filter_cons, ha]
    · rw [filter_orderedInsert_key_ne k a ha, sort_ranked_stories_stable k l]
      simp [List.filter_cons, ha]

/-- C2: the ranking sort of source line 264 orders the `ranked_stories` list by
repetition count descending, then by the most recent member's publication
timestamp descending (`Sorted rankGe`, a lexicographic total preorder on the
key tuple), it is a permutation of the emitted list, and it is stable: for
every key value, the sublist of entries carrying that key is kept in original
cluster-emission order, so residual ties are resolved by emission order. -/
theorem sort_ranked_stories_spec (l : List RankedStory) :
    (sort_ranked_stories l).Perm l ∧ (sort_ranked_stories l).Sorted rankGe ∧
      ∀ k : Nat × Nat,
        (sort_ranked_stories l).filter (fun s => decide (story_key s = k)) =
          l.filter (fun s => decide (story_key s = k)) :=
  ⟨List.perm_insertionSort rankGe l, List.sorted_insertionSort rankGe l,
   fun k => sort_ranked_stories_stable k l⟩

/-! ### C10: clusters of the pre-sorted candidate list are already sorted -/

theorem group_articles_go_sublist :
    ∀ (fuel : Nat) (l : List Article) (c : List Article),
      c ∈ group_articles_go fuel l → c.Sublist l := by
  intro fuel
  induction fuel with
  | zero =>
    intro l c hc
    cases l with
    | nil => simp [group_articles_go] at hc
    | cons a as => simp [group_articles_go] at hc
  | succ n ih =>
    intro l c hc
    cases l with
    | nil => simp [group_articles_go] at hc
    | cons a as =>
      simp only [group_articles_go, List.partition_eq_filter_filter, List.mem_cons] at hc
      rcases hc with rfl | hc
      · exact List.Sublist.cons₂ a (List.filter_sublist as)
      · exact (ih _ _ hc).trans ((List.filter_sublist as).trans (List.sublist_cons_self a as))

/-- C10: the candidate list is sorted by publication date descending before
clustering (source line 235); consequently every cluster emitted by
`group_articles` is already ordered by `pub_date` descending, the per-cluster
sort on source line 252 is a no-op, and each cluster's greedy seed (its first
member) has the maximal `pub_date` and is exactly the representative chosen by
the ranking loop. -/
theorem clusters_of_sorted_presorted (l : List Article) :
    ∀ c ∈ group_articles (sort_by_pub_date_desc l),
      c.Sorted pubDateGe ∧ sort_by_pub_date_desc c = c ∧
        ∀ x xs, c = x :: xs →
          (∀ a ∈ c, a.pub_date ≤ x.pub_date) ∧
            make_ranked_story c =
              some { representative_article_title := x.title
                     repetition_count := c.length
                     most_recent_pub_date := x.pub_date
                     articles_in_cluster := c
                     representative_article_for_summary := x } := by
  intro c hc
  have hsorted : (sort_by_pub_date_desc l).Sorted pubDateGe :=
    List.sorted_insertionSort pubDateGe l
  have hsub : c.Sublist (sort_by_pub_date_desc l) := group_articles_go_sublist _ _ c hc
  have hcs : c.Sorted pubDateGe := List.Pairwise.sublist hsub hsorted
  have heq : sort_by_pub_date_desc c = c := List.Sorted.insertionSort_eq hcs
  refine ⟨hcs, heq, ?_⟩
  intro x xs hxe
  subst hxe
  constructor
  · intro a ha
    rcases List.mem_cons.mp ha with rfl | ha
    · exact le_rfl
    · exact List.rel_of_sorted_cons hcs a ha
  · unfold make_ranked_story
    rw [heq]

theorem clusters_of_sorted_presorted_witness :
    sort_by_pub_date_desc [wArt1, wArt2] = [wArt1, wArt2] ∧
      make_ranked_story [wArt1, wArt2] =
        some { representative_article_title := wArt1.title
               repetition_count := 2
               most_recent_pub_date := wArt1.pub_date
               articles_in_cluster := [wArt1, wArt2]
               representative_article_for_summary := wArt1 } :=
  have h := clusters_of_sorted_presorted [wArt2, wArt1, wArt3] [wArt1, wArt2] (by decide)
  ⟨h.2.1, (h.2.2 wArt1 [wArt2] rfl).2⟩

/-! ### HTML model and `fetch_full_article_text` (source lines 67-123)

The HTTP fetch and the `BeautifulSoup` parse are external I/O; the function is
modelled from the parsed element tree onward, as a total function (the
`try/except` wrapper on source lines 117-123 turns any raised exception into
`None`, so the Python function is also total on its callers' view).  Each
element carries its tag name, its class/id attribute text, its direct text
fragment, and its children. -/

mutual
inductive HNode where
  | node (tag : String) (cls : Str) (text : Str) (children : HForest)
  deriving DecidableEq
inductive HForest where
  | nil
  | cons (head : HNode) (tail : HForest)
  deriving DecidableEq
end

def HNode.tag : HNode → String
  | .node t _ _ _ => t

def HNode.cls : HNode → Str
  | .node _ c _ _ => c

def HNode.text : HNode → Str
  | .node _ _ tx _ => tx

def HNode.children : HNode → HForest
  | .node _ _ _ cs => cs

/-- All nodes of a forest in document (pre-)order. -/
def HForest.nodes : HForest → List HNode
  | .nil => []
  | .cons (.node t c tx cs) ns => .node t c tx cs :: (cs.nodes ++ ns.nodes)

/-- The direct children as a list. -/
def HForest.toList : HForest → List HNode
  | .nil => []
  | .cons n ns => n :: ns.toList

/-- All text fragments of a forest in document order. -/
def HForest.allTexts : HForest → List Str
  | .nil => []
  | .cons (.node _ _ tx cs) ns => tx :: (cs.allTexts ++ ns.allTexts)

/-- The strict descendants of an element in document order — what
BeautifulSoup's `find_all` traverses. -/
def descendants (n : HNode) : List HNode := n.children.nodes

/-- The text fragments of an element's subtree (its own text first). -/
def node_texts (n : HNode) : List Str := n.text :: n.children.allTexts

/-- `tag.get_text()`: all fragments concatenated with no separator (used for
the tie-break length on source line 93). -/
def get_text_plain (n : HNode) : Str := (node_texts n).flatten

/-- Python `str.strip()`. -/
def trimStr (s : Str) : Str :=
  ((s.dropWhile Char.isWhitespace).reverse.dropWhile Char.isWhitespace).reverse

/-- `p.get_text(separator=' ', strip=True)` (source line 103): strip each
fragment, drop the empty ones, join with single spaces. -/
def get_text_sep_strip (n : HNode) : Str :=
  List.intercalate [' '] (((node_texts n).map trimStr).filter fun s => !s.isEmpty)

/-- The list argument of `soup.find_all` on source line 81, verbatim.
`find_all` matches these strings against element *names*: the four
CSS-selector-looking entries can therefore never match an HTML element (an
element name cannot contain brackets or quotes); only `article` and `main`
ever do. -/
def MAIN_CONTENT_TAG_FILTERS : List String :=
  ["article", "main",
   "section[class*=\"article-content\"]",
   "div[class*=\"article-body\"]",
   "div[class*=\"story-content\"]",
   "div[class*=\"main-content\"]"]

/-- `soup.find_all(names)`: the descendants whose tag name is one of the given
strings, in document order. -/
def find_all_by_name (names : List String) (doc : HNode) : List HNode :=
  (descendants doc).filter fun n => names.contains n.tag

/-- `len(tag.find_all('p', recursive=False))` (source line 89): direct
children named `p`. -/
def direct_p_count (n : HNode) : Nat :=
  (n.children.toList.filter fun c => c.tag == "p").length

/-- One iteration of the candidate-selection loop (source lines 88-94):
strictly more direct `p` children wins; on a tie (with a previous best, which
as a bs4 `Tag` is always truthy) a strictly longer `get_text()` wins. -/
def pick_best_step (acc : Option HNode × Int) (tag : HNode) : Option HNode × Int :=
  let p : Int := (direct_p_count tag : Int)
  if acc.2 < p then (some tag, p)
  else
    match acc.1 with
    | some b =>
      if p = acc.2 ∧ (get_text_plain b).length < (get_text_plain tag).length then
        (some tag, acc.2)
      else acc
    | none => acc

/-- The candidate-selection loop, starting from `best_candidate = None`,
`max_p_count = -1` (source lines 86-87). -/
def pick_best (tags : List HNode) : Option HNode :=
  (tags.foldl pick_best_step (none, -1)).1

/-- `content_element` after source lines 83-98: `None` stays `None` when no
name matches, and `if not content_element:` then falls back to the whole
document (`soup`); a bs4 `Tag` is truthy, so a chosen candidate is kept. -/
def chosen_container (doc : HNode) : HNode :=
  match find_all_by_name MAIN_CONTENT_TAG_FILTERS doc with
  | [] => doc
  | t :: ts => (pick_best (t :: ts)).getD doc

/-- `content_element.find_all('p')` (source line 100). -/
def paragraphs (doc : HNode) : List HNode :=
  (descendants (chosen_container doc)).filter fun n => n.tag == "p"

/-- `full_text` as built on source lines 102-105: paragraph texts, empty parts
filtered out, joined with a blank line. -/
def joined_text (doc : HNode) : Str :=
  List.intercalate ['\n', '\n']
    (((paragraphs doc).map get_text_sep_strip).filter fun s => !s.isEmpty)

/-- `max_chars_for_summary` (source line 112). -/
def MAX_CHARS_FOR_SUMMARY : Nat := 25000

/-- `fetch_full_article_text` from the parsed tree onward (source lines
77-116): reject a stripped result that is empty or under 200 characters,
truncate a result over the 25000-character budget. -/
def fetch_full_article_text (doc : HNode) : Option Str :=
  if trimStr (joined_text doc) = [] ∨ (trimStr (joined_text doc)).length < 200 then none
  else if MAX_CHARS_FOR_SUMMARY < (joined_text doc).length then
    some ((joined_text doc).take MAX_CHARS_FOR_SUMMARY)
  else some (joined_text doc)

/-! ### The tail of `main` (source lines 234-315)

Feed ingestion, the Gemini call and the XML serialization are external
collaborators; `main`'s core decisions are modelled from the candidate list
onward, parameterized by the page-fetch result (`fetch`) and the summarizer
(`summarize`).  `site_link` stands for the environment-derived project page
URL and `now` for `datetime.datetime.now(pytz.utc)`. -/

/-- One `PyRSS2Gen.RSSItem` as far as `main` fills it in. -/
structure RSSItem where
  title : Str
  link : Str
  description : Str
  guid : Option Str
  pubDate : Nat
  deriving DecidableEq, Repr

/-- `text_for_gemini` (source line 297): the fetched full text if it is truthy
(present and non-empty), otherwise the feed-supplied teaser
(`content_for_summary`). -/
def text_for_summary (fetch_result : Option Str) (rep : Article) : Str :=
  match fetch_result with
  | some t => if t = [] then rep.content_for_summary else t
  | none => rep.content_for_summary

/-- The default item built on source lines 270-275 when no story clusters
exist. -/
def placeholder_item (site_link : Str) (now : Nat) : RSSItem :=
  { title := "No prominent news topics identified".toList
    link := site_link
    description :=
      "Could not identify any news story clusters based on repetition in the last 12 hours.".toList
    guid := none
    pubDate := now }

/-- `final_rss_items` as computed by `main` from the candidate list onward
(source lines 234-314), or `none` for the early `return` on source lines
238-242, which writes no output document at all. -/
def run_items (fetch : Str → Option Str) (summarize : Str → Str → Str)
    (site_link : Str) (now : Nat) (articles : List Article) : Option (List RSSItem) :=
  let sorted := sort_by_pub_date_desc articles
  if sorted.isEmpty then none
  else
    match sort_ranked_stories (rank_stories (group_articles sorted)) with
    | [] => some [placeholder_item site_link now]
    | top :: _ =>
      let rep := top.representative_article_for_summary
      let ai_summary := summarize (text_for_summary (fetch rep.link) rep) rep.title
      some [{ title := rep.title
              link := rep.link
              description :=
                ai_summary ++ ('\n' :: '\n' :: "Source for summary: ".toList) ++ rep.source_feed
              guid := some rep.link
              pubDate := rep.pub_date }]

/-- The URL handed to `fetch_full_article_text` during the run, if any
(source line 296): the top-ranked story representative's link. -/
def fetched_link (articles : List Article) : Option Str :=
  let sorted := sort_by_pub_date_desc articles
  if sorted.isEmpty then none
  else
    match sort_ranked_stories (rank_stories (group_articles sorted)) with
    | [] => none
    | top :: _ => some top.representative_article_for_summary.link

/-! ### Non-emptiness of the pipeline stages -/

theorem group_articles_ne_nil (l : List Article) (h : l ≠ []) :
    group_articles l ≠ [] := by
  match l with
  | [] => exact absurd rfl h
  | a :: as =>
    show group_articles_go (as.length + 1) (a :: as) ≠ []
    simp [group_articles_go]

theorem rank_stories_ne_nil (clusters : List (List Article)) (h : clusters ≠ [])
    (hne : ∀ c ∈ clusters, c ≠ []) : rank_stories clusters ≠ [] := by
  match clusters with
  | [] => exact absurd rfl h
  | c :: cs =>
    have hc : c ≠ [] := hne c (List.mem_cons_self c cs)
    have hlen : (sort_by_pub_date_desc c).length = c.length :=
      List.length_insertionSort pubDateGe c
    have hsc : sort_by_pub_date_desc c ≠ [] := by
      intro hnil
      rw [hnil] at hlen
      exact hc (List.eq_nil_of_length_eq_zero hlen.symm)
    obtain ⟨rep, rest, hrr⟩ := List.exists_cons_of_ne_nil hsc
    simp only [rank_stories, List.filterMap_cons, make_ranked_story, hrr]
    simp

theorem sort_ranked_stories_ne_nil (l : List RankedStory) (h : l ≠ []) :
    sort_ranked_stories l ≠ [] := by
  intro hnil
  have := List.length_insertionSort rankGe l
  rw [show List.insertionSort rankGe l = sort_ranked_stories l from rfl, hnil] at this
  exact h (List.eq_nil_of_length_eq_zero this.symm)

theorem ranked_pipeline_ne_nil (articles : List Article) (h : articles ≠ []) :
    sort_ranked_stories (rank_stories (group_articles (sort_by_pub_date_desc articles))) ≠ [] := by
  have hs : sort_by_pub_date_desc articles ≠ [] := by
    intro hnil
    have := List.length_insertionSort pubDateGe articles
    rw [show List.insertionSort pubDateGe articles = sort_by_pub_date_desc articles from rfl,
      hnil] at this
    exact h (List.eq_nil_of_length_eq_zero this.symm)
  exact sort_ranked_stories_ne_nil _
    (rank_stories_ne_nil _ (group_articles_ne_nil _ hs)
      (fun c hc => group_articles_go_ne_nil _ _ c hc))

theorem sort_by_pub_date_desc_ne_nil (articles : List Article) (h : articles ≠ []) :
    sort_by_pub_date_desc articles ≠ [] := by
  intro hnil
  have := List.length_insertionSort pubDateGe articles
  rw [show List.insertionSort pubDateGe articles = sort_by_pub_date_desc articles from rfl,
    hnil] at this
  exact h (List.eq_nil_of_length_eq_zero this.symm)

/-! ### C3: behavior with zero candidate articles -/

/-- C3 counterexample: with zero candidate articles surviving the recency
filter, `main` takes the early `return` on source lines 238-242 — no output
document is produced at all, and in particular no placeholder item is emitted,
contradicting the claim. -/
theorem run_items_nil_counterexample :
    run_items (fun _ => none) (fun t _ => t) ['x'] 0 [] = none ∧
      run_items (fun _ => none) (fun t _ => t) ['x'] 0 [] ≠
        some [placeholder_item ['x'] 0] :=
  ⟨rfl, by decide⟩

/-- C3 (amended): when zero candidate articles survive the recency filtering,
the run selects no top story and returns early without emitting any output
document (and without raising an exception); whenever at least one candidate
survives, the run emits exactly one real item, so the placeholder branch of
source lines 267-276 is unreachable. -/
theorem run_items_empty_behavior :
    (∀ (fetch : Str → Option Str) (summarize : Str → Str → Str)
        (site_link : Str) (now : Nat),
        run_items fetch summarize site_link now [] = none) ∧
      ∀ (fetch : Str → Option Str) (summarize : Str → Str → Str)
        (site_link : Str) (now : Nat) (articles : List Article), articles ≠ [] →
          ∃ item, run_items fetch summarize site_link now articles = some [item] := by
  constructor
  · intro fetch summarize site_link now
    rfl
  · intro fetch summarize site_link now articles h
    have hs : sort_by_pub_date_desc articles ≠ [] := sort_by_pub_date_desc_ne_nil articles h
    have hie : (sort_by_pub_date_desc articles).isEmpty = false := by
      simp [List.isEmpty_iff, hs]
    obtain ⟨top, rest, hr⟩ := List.exists_cons_of_ne_nil (ranked_pipeline_ne_nil articles h)
    simp only [run_items, hie, Bool.false_eq_true, if_false, hr]
    exact ⟨_, rfl⟩

theorem run_items_empty_behavior_witness :
    run_items (fun _ => none) (fun t _ => t) ['y'] 3 [] = none ∧
      ∃ item, run_items (fun _ => none) (fun t _ => t) ['y'] 3 [wArt1] = some [item] :=
  ⟨run_items_empty_behavior.1 _ _ _ _,
   run_items_empty_behavior.2 _ _ _ _ [wArt1] (by simp)⟩

/-! ### C4: the representative is the most recent member and is the one fetched -/

/-- C4: for every non-empty cluster, the ranking loop's representative article
is a member of the cluster with the maximal `pub_date` (the most recent
member), and the link handed to `fetch_full_article_text` (source line 296) is
exactly the top-ranked story representative's link. -/
theorem representative_most_recent_and_fetched :
    (∀ (clusters : List (List Article)) (s : RankedStory), s ∈ rank_stories clusters →
        s.representative_article_for_summary ∈ s.articles_in_cluster ∧
          ∀ a ∈ s.articles_in_cluster,
            a.pub_date ≤ s.representative_article_for_summary.pub_date) ∧
      ∀ articles : List Article, articles ≠ [] →
        ∃ top rest,
          sort_ranked_stories (rank_stories (group_articles (sort_by_pub_date_desc articles))) =
              top :: rest ∧
            fetched_link articles = some top.representative_article_for_summary.link := by
  constructor
  · intro clusters s hs
    obtain ⟨c, hc, hmk⟩ := List.mem_filterMap.mp hs
    unfold make_ranked_story at hmk
    cases hsort : sort_by_pub_date_desc c with
    | nil => rw [hsort] at hmk; cases hmk
    | cons rep rest =>
      rw [hsort] at hmk
      have hsorted : (rep :: rest).Sorted pubDateGe := by
        rw [← hsort]
        exact List.sorted_insertionSort pubDateGe c
      cases hmk
      constructor
      · exact List.mem_cons_self _ _
      · intro a ha
        rcases List.mem_cons.mp ha with rfl | ha
        · exact le_rfl
        · exact List.rel_of_sorted_cons hsorted a ha
  · intro articles h
    have hs : sort_by_pub_date_desc articles ≠ [] := sort_by_pub_date_desc_ne_nil articles h
    have hie : (sort_by_pub_date_desc articles).isEmpty = false := by
      simp [List.isEmpty_iff, hs]
    obtain ⟨top, rest, hr⟩ := List.exists_cons_of_ne_nil (ranked_pipeline_ne_nil articles h)
    refine ⟨top, rest, hr, ?_⟩
    simp only [fetched_link, hie, Bool.false_eq_true, if_false, hr]

/-- The ranked story produced for the cluster `[wArt1, wArt2]`. -/
def wStory : RankedStory :=
  { representative_article_title := wArt1.title
    repetition_count := 2
    most_recent_pub_date := 10
    articles_in_cluster := [wArt1, wArt2]
    representative_article_for_summary := wArt1 }

theorem representative_most_recent_and_fetched_witness :
    (wStory.representative_article_for_summary ∈ wStory.articles_in_cluster ∧
        ∀ a ∈ wStory.articles_in_cluster,
          a.pub_date ≤ wStory.representative_article_for_summary.pub_date) ∧
      ∃ top rest,
        sort_ranked_stories
            (rank_stories (group_articles (sort_by_pub_date_desc [wArt2, wArt1, wArt3]))) =
            top :: rest ∧
          fetched_link [wArt2, wArt1, wArt3] =
            some top.representative_article_for_summary.link :=
  ⟨representative_most_recent_and_fetched.1 [[wArt1, wArt2]] wStory (by decide),
   representative_most_recent_and_fetched.2 [wArt2, wArt1, wArt3] (by simp)⟩

/-! ### C5: candidate identification -/

/-- Contiguous-substring test (Python `needle in hay` on strings). -/
def isSubstrOf (needle : Str) : Str → Bool
  | [] => needle.isEmpty
  | c :: rest => needle.isPrefixOf (c :: rest) || isSubstrOf needle rest

/-- The class/id hint substrings named by the specification (and appearing
verbatim inside the selector-like strings of `MAIN_CONTENT_TAG_FILTERS`). -/
def HINT_SUBSTRINGS : List Str :=
  ["content".toList, "article-body".toList, "story-content".toList, "main-content".toList]

/-- Modelled from the spec: the candidate identification the specification
describes — an `article` or `main` element, or a container whose class/id text
contains one of the hint substrings.  The code's `find_all` call cannot
express the class/id part (`find_all` matches the selector-like strings of
`MAIN_CONTENT_TAG_FILTERS` as literal tag names); this definition exists only
to exhibit that divergence. -/
def spec_hint_candidates (doc : HNode) : List HNode :=
  (descendants doc).filter fun n =>
    n.tag == "article" || n.tag == "main" ||
      HINT_SUBSTRINGS.any fun h => isSubstrOf h n.cls

/-- A page whose only article container is `<div class="main-content">`, with
two real paragraphs inside it and one boilerplate paragraph outside it. -/
def c5_div : HNode :=
  .node "div" ("main-content".toList) []
    (.cons (.node "p" [] ("First article paragraph.".toList) .nil)
      (.cons (.node "p" [] ("Second article paragraph.".toList) .nil) .nil))

def c5_doc : HNode :=
  .node "[document]" [] []
    (.cons
      (.node "html" [] []
        (.cons
          (.node "body" [] []
            (.cons c5_div
              (.cons (.node "p" [] ("Subscribe to the newsletter".toList) .nil) .nil)))
          .nil))
      .nil)

/-- C5: evaluation at the failing input.  The specification's candidate
identification finds the `div` whose class contains "main-content", but the
code's `find_all` call — which matches its entries against literal tag
names — finds no candidate at all on this page, and the extractor falls back
to treating the whole document as the container. -/
theorem find_all_misses_class_hints :
    find_all_by_name MAIN_CONTENT_TAG_FILTERS c5_doc = [] ∧
      spec_hint_candidates c5_doc = [c5_div] ∧
      chosen_container c5_doc = c5_doc := by
  refine ⟨by decide, by decide, by decide⟩

/-! ### Extraction length rules (C6, C7, C8) -/

theorem trimStr_length_le (s : Str) : (trimStr s).length ≤ s.length := by
  unfold trimStr
  calc ((s.dropWhile Char.isWhitespace).reverse.dropWhile Char.isWhitespace).reverse.length
      = ((s.dropWhile Char.isWhitespace).reverse.dropWhile Char.isWhitespace).length := by
        rw [List.length_reverse]
    _ ≤ (s.dropWhile Char.isWhitespace).reverse.length :=
        (List.dropWhile_sublist Char.isWhitespace).length_le
    _ = (s.dropWhile Char.isWhitespace).length := by rw [List.length_reverse]
    _ ≤ s.length := (List.dropWhile_sublist Char.isWhitespace).length_le

theorem dropWhile_replicate_of_neg (p : Char → Bool) (c : Char) (hc : p c = false) :
    ∀ n, List.dropWhile p (List.replicate n c) = List.replicate n c := by
  intro n
  cases n with
  | zero => rfl
  | succ m => rw [List.replicate_succ, List.dropWhile_cons, hc]; simp

theorem trimStr_replicate_a (n : Nat) :
    trimStr (List.replicate n 'a') = List.replicate n 'a' := by
  unfold trimStr
  rw [dropWhile_replicate_of_neg Char.isWhitespace 'a' (by decide) n,
    List.reverse_replicate, dropWhile_replicate_of_neg Char.isWhitespace 'a' (by decide) n,
    List.reverse_replicate]

/-- A minimal page: a single paragraph with the given text. -/
def pDoc (s : Str) : HNode :=
  .node "[document]" [] []
    (.cons
      (.node "html" [] []
        (.cons (.node "body" [] [] (.cons (.node "p" [] s .nil) .nil)) .nil))
      .nil)

theorem paragraphs_pDoc (s : Str) : paragraphs (pDoc s) = [HNode.node "p" [] s .nil] := rfl

theorem joined_text_pDoc (s : Str) (h : trimStr s = s) (h2 : s ≠ []) :
    joined_text (pDoc s) = s := by
  unfold joined_text
  rw [paragraphs_pDoc]
  have hg : get_text_sep_strip (HNode.node "p" [] s .nil) = s := by
    unfold get_text_sep_strip node_texts
    show List.intercalate [' '] (List.filter _ (List.map trimStr [s])) = s
    rw [List.map_singleton, h]
    have hne : s.isEmpty = false := by
      cases s with
      | nil => exact absurd rfl h2
      | cons c cs => rfl
    simp [List.filter, hne, List.intercalate, List.intersperse]
  rw [List.map_singleton, hg]
  have hne : s.isEmpty = false := by
    cases s with
    | nil => exact absurd rfl h2
    | cons c cs => rfl
  simp [List.filter, hne, List.intercalate, List.intersperse]

/-- Shared consequence of the length gate: a successful extraction is never
empty and never under 200 characters. -/
theorem fetch_some_spec (doc : HNode) (t : Str)
    (ht : fetch_full_article_text doc = some t) : t ≠ [] ∧ 200 ≤ t.length := by
  unfold fetch_full_article_text at ht
  by_cases hcond :
      trimStr (joined_text doc) = [] ∨ (trimStr (joined_text doc)).length < 200
  · rw [if_pos hcond] at ht
    cases ht
  · rw [if_neg hcond] at ht
    push_neg at hcond
    have h200 : 200 ≤ (trimStr (joined_text doc)).length := hcond.2
    have hj : 200 ≤ (joined_text doc).length :=
      le_trans h200 (trimStr_length_le (joined_text doc))
    by_cases hlen : MAX_CHARS_FOR_SUMMARY < (joined_text doc).length
    · rw [if_pos hlen] at ht
      cases ht
      have hl : ((joined_text doc).take MAX_CHARS_FOR_SUMMARY).length =
          MAX_CHARS_FOR_SUMMARY := by
        rw [List.length_take]
        exact min_eq_left (le_of_lt hlen)
      constructor
      · intro hnil
        rw [hnil] at hl
        exact absurd hl.symm (by norm_num [MAX_CHARS_FOR_SUMMARY])
      · rw [hl]
        norm_num [MAX_CHARS_FOR_SUMMARY]
    · rw [if_neg hlen] at ht
      cases ht
      constructor
      · intro hnil
        rw [hnil] at hj
        exact absurd hj (by norm_num)
      · exact hj

/-- C6: for every page whose joined paragraph text is empty or shorter than
the 200-character minimum, extraction returns the explicit failure signal
(`None`), and extraction never returns a short non-empty string: any
successful result is non-empty and at least 200 characters long. -/
theorem short_extraction_rejected (doc : HNode) :
    ((joined_text doc = [] ∨ (joined_text doc).length < 200) →
        fetch_full_article_text doc = none) ∧
      ∀ t, fetch_full_article_text doc = some t → t ≠ [] ∧ 200 ≤ t.length := by
  constructor
  · intro h
    unfold fetch_full_article_text
    rw [if_pos]
    rcases h with h | h
    · left
      rw [h]
      rfl
    · right
      exact lt_of_le_of_lt (trimStr_length_le (joined_text doc)) h
  · exact fetch_some_spec doc

theorem replicate_a_ne_nil (n : Nat) (h : n ≠ 0) : List.replicate n 'a' ≠ [] := by
  intro hnil
  have hlen := congrArg List.length hnil
  rw [List.length_replicate] at hlen
  simp at hlen
  exact h hlen

/-- Evaluation of the extractor on a page whose single paragraph holds `n`
characters, for `n` within the accepted range: the text comes back whole. -/
theorem fetch_replicate (n : Nat) (h200 : 200 ≤ n) (hcap : n ≤ MAX_CHARS_FOR_SUMMARY) :
    fetch_full_article_text (pDoc (List.replicate n 'a')) = some (List.replicate n 'a') := by
  have hne : List.replicate n 'a' ≠ [] := replicate_a_ne_nil n (by omega)
  have hj : joined_text (pDoc (List.replicate n 'a')) = List.replicate n 'a' :=
    joined_text_pDoc _ (trimStr_replicate_a n) hne
  unfold fetch_full_article_text
  rw [hj, trimStr_replicate_a]
  have hC1 : ¬(List.replicate n 'a' = [] ∨ (List.replicate n 'a').length < 200) := by
    rw [List.length_replicate]
    push_neg
    exact ⟨hne, h200⟩
  have hC2 : ¬MAX_CHARS_FOR_SUMMARY < (List.replicate n 'a').length := by
    rw [List.length_replicate]
    exact not_lt.mpr hcap
  rw [if_neg hC1, if_neg hC2]

/-- Evaluation of the extractor on a page whose single paragraph holds 25100
characters: the result is truncated to the 25000-character budget. -/
theorem fetch_replicate_big :
    fetch_full_article_text (pDoc (List.replicate 25100 'a')) =
      some (List.replicate 25000 'a') := by
  have hne : List.replicate (25100 : Nat) 'a' ≠ [] := replicate_a_ne_nil _ (by norm_num)
  have hj : joined_text (pDoc (List.replicate 25100 'a')) = List.replicate 25100 'a' :=
    joined_text_pDoc _ (trimStr_replicate_a _) hne
  unfold fetch_full_article_text
  rw [hj, trimStr_replicate_a]
  have hC1 : ¬(List.replicate (25100 : Nat) 'a' = [] ∨
      (List.replicate (25100 : Nat) 'a').length < 200) := by
    rw [List.length_replicate]
    push_neg
    exact ⟨hne, by norm_num⟩
  have hC2 : MAX_CHARS_FOR_SUMMARY < (List.replicate (25100 : Nat) 'a').length := by
    rw [List.length_replicate]
    norm_num [MAX_CHARS_FOR_SUMMARY]
  rw [if_neg hC1, if_pos hC2, List.take_replicate]
  rw [min_eq_left (by norm_num [MAX_CHARS_FOR_SUMMARY])]
  rfl

/-- A page whose joined paragraph text is the two characters `hi`. -/
def smallDoc : HNode := pDoc ['h', 'i']

theorem short_extraction_rejected_witness :
    fetch_full_article_text smallDoc = none ∧
      List.replicate (300 : Nat) 'a' ≠ [] ∧
        200 ≤ (List.replicate (300 : Nat) 'a').length :=
  ⟨(short_extraction_rejected smallDoc).1 (Or.inr (by decide)),
   (short_extraction_rejected (pDoc (List.replicate 300 'a'))).2 _
     (fetch_replicate 300 (by norm_num) (by norm_num [MAX_CHARS_FOR_SUMMARY]))⟩

/-- C7: for every successful extraction whose joined text exceeds the
25000-character budget, the result is exactly the first 25000 characters of
the joined text — never the full over-budget text (its length is exactly the
budget, which is strictly below the joined length) and never empty. -/
theorem truncation_to_budget (doc : HNode) (t : Str)
    (h1 : fetch_full_article_text doc = some t)
    (h2 : MAX_CHARS_FOR_SUMMARY < (joined_text doc).length) :
    t = (joined_text doc).take MAX_CHARS_FOR_SUMMARY ∧
      t.length = MAX_CHARS_FOR_SUMMARY ∧ t ≠ [] := by
  unfold fetch_full_article_text at h1
  by_cases hcond :
      trimStr (joined_text doc) = [] ∨ (trimStr (joined_text doc)).length < 200
  · rw [if_pos hcond] at h1
    cases h1
  · rw [if_neg hcond, if_pos h2] at h1
    cases h1
    have hl : ((joined_text doc).take MAX_CHARS_FOR_SUMMARY).length =
        MAX_CHARS_FOR_SUMMARY := by
      rw [List.length_take]
      exact min_eq_left (le_of_lt h2)
    refine ⟨rfl, hl, ?_⟩
    intro hnil
    rw [hnil] at hl
    exact absurd hl.symm (by norm_num [MAX_CHARS_FOR_SUMMARY])

theorem truncation_to_budget_witness :
    List.replicate (25000 : Nat) 'a' =
        (joined_text (pDoc (List.replicate 25100 'a'))).take MAX_CHARS_FOR_SUMMARY ∧
      (List.replicate (25000 : Nat) 'a').length = MAX_CHARS_FOR_SUMMARY ∧
        List.replicate (25000 : Nat) 'a' ≠ [] :=
  truncation_to_budget (pDoc (List.replicate 25100 'a')) _ fetch_replicate_big
    (by
      rw [joined_text_pDoc _ (trimStr_replicate_a _) (replicate_a_ne_nil _ (by norm_num)),
        List.length_replicate]
      norm_num [MAX_CHARS_FOR_SUMMARY])

/-- C8: extraction failure is a first-class result: the extractor is a total
function returning either the extracted text (always non-empty) or the
explicit failure signal `None` (the `try/except` wrapper on source lines
117-123 converts any exception into `None`, so no exception reaches the
caller), and on failure the caller's `text_for_gemini` (source line 297) falls
back to the feed-supplied teaser of the representative article. -/
theorem extraction_failure_first_class :
    (∀ doc : HNode, fetch_full_article_text doc = none ∨
        ∃ t, fetch_full_article_text doc = some t ∧ t ≠ []) ∧
      ∀ (fetch_result : Option Str) (rep : Article), fetch_result = none →
        text_for_summary fetch_result rep = rep.content_for_summary := by
  constructor
  · intro doc
    cases hf : fetch_full_article_text doc with
    | none => exact Or.inl rfl
    | some t => exact Or.inr ⟨t, rfl, (fetch_some_spec doc t hf).1⟩
  · intro fr rep h
    rw [h]
    rfl

theorem extraction_failure_first_class_witness :
    (fetch_full_article_text smallDoc = none ∨
        ∃ t, fetch_full_article_text smallDoc = some t ∧ t ≠ []) ∧
      text_for_summary none wArt1 = wArt1.content_for_summary :=
  ⟨extraction_failure_first_class.1 smallDoc,
   extraction_failure_first_class.2 none wArt1 rfl⟩
